import Mathlib

/-!
Shallow embedding of the `abcrab` crate (src/lib.rs, src/parser.rs): the
pitch/length token parsers for a fragment of ABC musical notation, the
canonical duration table, and the glyph renderer.  Rust `i32` values are
modelled as `Int` (no arithmetic in the verified claims approaches the
`i32` range), strings as `List Char`, and fallible operations as
`Option`/explicit result types.  A Rust panic (`unwrap`, or the
zero-denominator assertion inside `Rational32::new`) is modelled as a
distinguished result constructor, never as a Lean error.
-/

namespace Abcrab

/-- The five accidental markers, from `enum Accidental` in src/lib.rs. -/
inductive Accidental
  | Flat2
  | Flat
  | Natural
  | Sharp
  | Sharp2
deriving DecidableEq

/-- The nine note shapes in ascending duration order, from `enum NoteShape`
in src/lib.rs. -/
inductive NoteShape
  | Hundred28th
  | SixtyFourth
  | ThirtySecond
  | Sixteenth
  | Eighth
  | Quarter
  | Half
  | Whole
  | Breve
deriving DecidableEq

/-- A resolved duration, from `struct Length` in src/lib.rs: a note shape
plus a dot count (`dot: i32`). -/
structure Length where
  note_shape : NoteShape
  dot : Int
deriving DecidableEq

/-- A parsed note, from `struct Note` in src/lib.rs. -/
structure Note where
  octave : Int
  key : Char
  accidental : Option Accidental
  length : Length
deriving DecidableEq

/-- Reduction of a fraction to lowest terms with positive denominator, as
performed by `num::rational::Rational32::new` (divide numerator and
denominator by their gcd, then flip both signs if the denominator is
negative).  Only called with a nonzero denominator; the divisions are
exact, so Lean's integer division agrees with Rust's. -/
def reduce (n d : Int) : Int × Int :=
  let g : Int := Int.gcd n d
  let n' := n / g
  let d' := d / g
  if d' < 0 then (-n', -d') else (n', d')

/-- The canonical duration table: the arms of the `match` in
`Length::new` (src/lib.rs lines 118-253), in source order, keyed by the
reduced `(numerator, denominator)` pair and giving the
`(note_shape, dot)` pair each arm constructs. -/
def canonicalTable : List ((Int × Int) × (NoteShape × Int)) :=
  [ ((1, 128), (.Hundred28th, 0)),
    ((1, 64), (.SixtyFourth, 0)),
    ((3, 128), (.SixtyFourth, 1)),
    ((1, 32), (.ThirtySecond, 0)),
    ((3, 64), (.ThirtySecond, 1)),
    ((7, 128), (.ThirtySecond, 2)),
    ((1, 16), (.Sixteenth, 0)),
    ((3, 32), (.Sixteenth, 1)),
    ((7, 64), (.Sixteenth, 2)),
    ((15, 128), (.Sixteenth, 3)),
    ((1, 8), (.Eighth, 0)),
    ((3, 16), (.Eighth, 1)),
    ((7, 32), (.Eighth, 2)),
    ((15, 64), (.Eighth, 3)),
    ((1, 4), (.Quarter, 0)),
    ((3, 8), (.Quarter, 1)),
    ((7, 16), (.Quarter, 2)),
    ((15, 32), (.Quarter, 3)),
    ((1, 2), (.Half, 0)),
    ((3, 4), (.Half, 1)),
    ((7, 8), (.Half, 2)),
    ((15, 16), (.Half, 3)),
    ((1, 1), (.Whole, 0)),
    ((3, 2), (.Whole, 1)),
    ((7, 4), (.Whole, 2)),
    ((15, 8), (.Whole, 3)),
    ((2, 1), (.Breve, 0)),
    ((3, 1), (.Breve, 1)),
    ((7, 2), (.Breve, 2)),
    ((15, 4), (.Breve, 3)) ]

/-- Possible outcomes of `Length::new`: success, the recoverable
`IllegalLength` error, or the panic raised by `Rational32::new` when the
denominator is zero. -/
inductive NewResult
  | ok (l : Length)
  | illegal
  | panicZeroDenom
deriving DecidableEq

/-- `Length::new` from src/lib.rs: normalise the ratio via `Rational32`
(which asserts a nonzero denominator) and match the reduced pair against
the canonical table arms; the `match` fallthrough returns the
`IllegalLength` error. -/
def Length.new (ratio : Int × Int) : NewResult :=
  if ratio.2 = 0 then .panicZeroDenom
  else
    match canonicalTable.lookup (reduce ratio.1 ratio.2) with
    | some (s, k) => .ok ⟨s, k⟩
    | none => .illegal

/-- The nom `tag` combinator specialised to character lists: succeed and
consume `t` when it is a literal prefix of the input, otherwise fail. -/
def tag (t input : List Char) : Option (List Char) :=
  if t.isPrefixOf input then some (input.drop t.length) else none

/-- The accidental lexer from src/parser.rs: an `alt` trying, in source
order, the tags for double sharp, sharp, double flat, flat, natural. -/
def accidental (input : List Char) : Option (List Char × Accidental) :=
  match tag ['^', '^'] input with
  | some r => some (r, .Sharp2)
  | none =>
  match tag ['^'] input with
  | some r => some (r, .Sharp)
  | none =>
  match tag ['_', '_'] input with
  | some r => some (r, .Flat2)
  | none =>
  match tag ['_'] input with
  | some r => some (r, .Flat)
  | none =>
  match tag ['='] input with
  | some r => some (r, .Natural)
  | none => none

/-- The octave-mark lexer `octave_count` from src/parser.rs:
`fold_many0` over an `alt` of `many1_count(tag("'"))` (each quote `+1`)
and `many1_count(tag(","))` (each comma `-1`), summing the
contributions.  Folding a maximal run of quotes or commas at a time and
summing the run counts yields the same consumed prefix and the same sum
as this per-character recursion, which is how it is written here. -/
def octave_count : List Char → List Char × Int
  | [] => ([], 0)
  | x :: rest =>
    if x = '\'' then
      ((octave_count rest).1, (octave_count rest).2 + 1)
    else if x = ',' then
      ((octave_count rest).1, (octave_count rest).2 - 1)
    else (x :: rest, 0)

/-- The key-letter and octave-mark tail of the `pitch` parser from
src/parser.rs: the `alt((high, low))` key parser (lowercase `a`-`g`
tried first, adding `1` to the mutable octave accumulator that starts
at `4` and uppercasing the letter; uppercase `A`-`G` second) followed by
`octave_count`, whose delta is added to the accumulator. -/
def pitchTail (input1 : List Char) (acc : Option Accidental) :
    Option (List Char × Note) :=
  match input1 with
  | [] => none
  | ch :: rest =>
    if 'a' ≤ ch ∧ ch ≤ 'g' then
      some ((octave_count rest).1,
        ⟨4 + 1 + (octave_count rest).2, ch.toUpper, acc, ⟨.Eighth, 0⟩⟩)
    else if 'A' ≤ ch ∧ ch ≤ 'G' then
      some ((octave_count rest).1,
        ⟨4 + (octave_count rest).2, ch, acc, ⟨.Eighth, 0⟩⟩)
    else none

/-- The `pitch` parser from src/parser.rs:
`tuple((opt(accidental), some_key, octave_count))`.  The `opt` consumes
an accidental when one is present and otherwise consumes nothing; the
built `Note` always carries the hardcoded placeholder length
`Length { note_shape: Eighth, dot: 0 }`. -/
def pitch (input : List Char) : Option (List Char × Note) :=
  match accidental input with
  | some (afterAcc, a) => pitchTail afterAcc (some a)
  | none => pitchTail input none

/-- Consume a maximal run of decimal digits, returning the digits and the
remaining input (the nom `digit1` succeeds only when the run is
nonempty). -/
def digitSpan : List Char → List Char × List Char
  | [] => ([], [])
  | c :: rest =>
    if c.isDigit then ((digitSpan rest).1.cons c, (digitSpan rest).2)
    else ([], c :: rest)

/-- The nom `digit1` combinator: one or more decimal digits. -/
def digit1 (input : List Char) : Option (List Char × List Char) :=
  match digitSpan input with
  | ([], _) => none
  | (ds, r) => some (r, ds)

/-- Numeric value of a decimal digit run. -/
def digitsToNat (ds : List Char) : Nat :=
  ds.foldl (fun a c => a * 10 + (c.toNat - '0'.toNat)) 0

/-- Rust's `str::parse::<i32>` on a run of decimal digits (no sign): the
value, or failure when it exceeds `i32::MAX`. -/
def parse_i32 (ds : List Char) : Option Int :=
  if digitsToNat ds ≤ 2147483647 then some (Int.ofNat (digitsToNat ds))
  else none

/-- The `map_res(digit1, parse::<i32>)` building block (`num1`/`num2`/
`num3` in src/parser.rs `length`). -/
def num (input : List Char) : Option (List Char × Int) :=
  match digit1 input with
  | some (r, ds) =>
    match parse_i32 ds with
    | some v => some (r, v)
    | none => none
  | none => none

/-- First `length` alternative: `tuple((num1, preceded(tag("/"), num2)))`
- digits, slash, digits. -/
def num_num (input : List Char) : Option (List Char × (Int × Int)) :=
  match num input with
  | some (r1, nu) =>
    match tag ['/'] r1 with
    | some r2 =>
      match num r2 with
      | some (r3, de) => some (r3, (nu, de))
      | none => none
    | none => none
  | none => none

/-- Second `length` alternative: `preceded(tag("/"), num3)` mapped to
numerator `1`. -/
def slash_num (input : List Char) : Option (List Char × (Int × Int)) :=
  match tag ['/'] input with
  | some r1 =>
    match num r1 with
    | some (r2, de) => some (r2, (1, de))
    | none => none
  | none => none

/-- Count a maximal run of leading slashes (`many1_count(tag("/"))`
succeeds only when the count is positive). -/
def slashes : List Char → Nat × List Char
  | [] => (0, [])
  | c :: rest =>
    if c = '/' then ((slashes rest).1 + 1, (slashes rest).2)
    else (0, c :: rest)

/-- Third `length` alternative: one or more bare slashes, mapped to the
fraction `1 / 2^count` (`base2.pow`; the verified inputs stay far below
the `i32` overflow range, so the power is modelled exactly). -/
def slash_only (input : List Char) : Option (List Char × (Int × Int)) :=
  match slashes input with
  | (0, _) => none
  | (n, r) => some (r, (1, (2 : Int) ^ n))

/-- Possible outcomes of the `length` parser in src/parser.rs: success,
a recoverable nom parse error, or a panic.  The panic arises from the
`.unwrap()` applied to `Length::new`'s result on line 78 (or from the
zero-denominator assertion inside `Length::new` itself). -/
inductive LenResult
  | ok (rest : List Char) (l : Length)
  | err
  | panicked
deriving DecidableEq

/-- The `length` parser from src/parser.rs:
`alt((num_num, slash_num, slash_only))` followed by
`Length::new((numer, denom)).unwrap()`. -/
def length (input : List Char) : LenResult :=
  match (num_num input).orElse
      (fun _ => (slash_num input).orElse (fun _ => slash_only input)) with
  | some (rest, (nu, de)) =>
    match Length.new (nu, de) with
    | .ok l => .ok rest l
    | _ => .panicked
  | none => .err

/-- Unicode glyph for each note shape, from `impl Display for NoteShape`
in src/lib.rs (codepoints `1D164` down to `1D15C`). -/
def noteShapeGlyph : NoteShape → Char
  | .Hundred28th => Char.ofNat 0x1D164
  | .SixtyFourth => Char.ofNat 0x1D163
  | .ThirtySecond => Char.ofNat 0x1D162
  | .Sixteenth => Char.ofNat 0x1D161
  | .Eighth => Char.ofNat 0x1D160
  | .Quarter => Char.ofNat 0x1D15F
  | .Half => Char.ofNat 0x1D15E
  | .Whole => Char.ofNat 0x1D15D
  | .Breve => Char.ofNat 0x1D15C

/-- Unicode glyph for each accidental, from `impl Display for Accidental`
in src/lib.rs. -/
def accidentalGlyph : Accidental → Char
  | .Flat2 => Char.ofNat 0x1D12B
  | .Flat => Char.ofNat 0x266D
  | .Natural => Char.ofNat 0x266E
  | .Sharp => Char.ofNat 0x266F
  | .Sharp2 => Char.ofNat 0x1D12A

/-- The augmentation-dot glyph, `const DOT` in src/lib.rs. -/
def DOT : Char := Char.ofNat 0x1D16D

/-- Rendering of a `Length` from `impl Display for Length` in
src/lib.rs: the shape glyph followed by one dot glyph per unit of the
dot count (the Rust `0..dot` loop is empty for a non-positive count,
matching `Int.toNat`). -/
def lengthChars (l : Length) : List Char :=
  noteShapeGlyph l.note_shape :: List.replicate l.dot.toNat DOT

/-- Rendering of the optional accidental inside `impl Display for Note`:
the glyph when present, nothing otherwise. -/
def noteAccChars (acc : Option Accidental) : List Char :=
  match acc with
  | some a => [accidentalGlyph a]
  | none => []

/-- The part of `impl Display for Note` (src/lib.rs lines 61-76) before
the octave logic: `<`, the key, the accidental if any, a space, and the
rendered length. -/
def note_head (n : Note) : List Char :=
  '<' :: n.key :: (noteAccChars n.accidental ++ ' ' :: lengthChars n.length)

/-- Decimal digits of a natural number, most significant first, as
produced by Rust's `Display` for integers. -/
def natChars (n : Nat) : List Char :=
  if h : n < 10 then [Char.ofNat (48 + n)]
  else natChars (n / 10) ++ [Char.ofNat (48 + n % 10)]
termination_by n
decreasing_by exact Nat.div_lt_self (by omega) (by omega)

/-- Rust's `Display` for `i32`: decimal digits with a leading minus sign
for negative values. -/
def intChars (i : Int) : List Char :=
  if i < 0 then '-' :: natChars i.natAbs else natChars i.toNat

/-- The full `impl Display for Note` from src/lib.rs: the head followed
by ` @<octave>>` when the octave differs from the reference octave `4`,
and by the bare closing `>` otherwise. -/
def note_format (n : Note) : List Char :=
  note_head n ++
    (if n.octave ≠ 4 then ' ' :: '@' :: (intChars n.octave ++ ['>'])
     else ['>'])

/-- Base duration of each note shape relative to a whole note, as
enumerated in the specification (doubling from `1/128` for the 128th up
to `1/1` for the whole note and `2/1` for the breve). -/
def baseDur : NoteShape → ℚ
  | .Hundred28th => 1 / 128
  | .SixtyFourth => 1 / 64
  | .ThirtySecond => 1 / 32
  | .Sixteenth => 1 / 16
  | .Eighth => 1 / 8
  | .Quarter => 1 / 4
  | .Half => 1 / 2
  | .Whole => 1
  | .Breve => 2

/-- The seven uppercase key letters accepted by the pitch grammar. -/
def uppercaseKeys : List Char := ['A', 'B', 'C', 'D', 'E', 'F', 'G']

/-- The seven lowercase key letters accepted by the pitch grammar. -/
def lowercaseKeys : List Char := ['a', 'b', 'c', 'd', 'e', 'f', 'g']

section Lemmas

lemma mem_of_lookup_eq_some {α β : Type} [BEq α] [LawfulBEq α]
    {l : List (α × β)} {k : α} {v : β} (h : l.lookup k = some v) :
    (k, v) ∈ l := by
  induction l with
  | nil => simp [List.lookup] at h
  | cons e es ih =>
    obtain ⟨a, b⟩ := e
    rw [List.lookup] at h
    by_cases hk : k = a
    · subst hk
      simp at h
      simp [h]
    · have : (k == a) = false := beq_eq_false_iff_ne.mpr hk
      rw [this] at h
      simp [ih h]

lemma lookup_eq_none_of_not_mem {α β : Type} [BEq α] [LawfulBEq α]
    {l : List (α × β)} {k : α} (hk : k ∉ l.map Prod.fst) :
    l.lookup k = none := by
  induction l with
  | nil => rfl
  | cons e es ih =>
    obtain ⟨a, b⟩ := e
    simp at hk
    rw [List.lookup]
    have : (k == a) = false := beq_eq_false_iff_ne.mpr hk.1
    rw [this]
    exact ih (by simpa using hk.2)

/-- Reduction preserves the value of the fraction. -/
lemma reduce_div_eq (n d : Int) (hd : d ≠ 0) :
    (((reduce n d).1 : ℚ) / ((reduce n d).2 : ℚ)) = (n : ℚ) / d := by
  have hg : (Int.gcd n d : Int) ≠ 0 := by
    simp only [ne_eq, Int.natCast_eq_zero, Int.gcd_eq_zero_iff, not_and]
    exact fun _ => hd
  have hgq : ((Int.gcd n d : Int) : ℚ) ≠ 0 := by exact_mod_cast hg
  have hn : (Int.gcd n d : Int) * (n / (Int.gcd n d : Int)) = n :=
    Int.mul_ediv_cancel' (Int.gcd_dvd_left)
  have hdd : (Int.gcd n d : Int) * (d / (Int.gcd n d : Int)) = d :=
    Int.mul_ediv_cancel' (Int.gcd_dvd_right)
  have hnq : (n : ℚ) =
      ((Int.gcd n d : Int) : ℚ) * ((n / (Int.gcd n d : Int) : Int) : ℚ) := by
    exact_mod_cast hn.symm
  have hdq : (d : ℚ) =
      ((Int.gcd n d : Int) : ℚ) * ((d / (Int.gcd n d : Int) : Int) : ℚ) := by
    exact_mod_cast hdd.symm
  have key : ((n / (Int.gcd n d : Int) : Int) : ℚ) /
      ((d / (Int.gcd n d : Int) : Int) : ℚ) = (n : ℚ) / d := by
    rw [hnq, hdq, mul_div_mul_left _ _ hgq]
  rw [show reduce n d
      = if d / (Int.gcd n d : Int) < 0
        then (-(n / (Int.gcd n d : Int)), -(d / (Int.gcd n d : Int)))
        else (n / (Int.gcd n d : Int), d / (Int.gcd n d : Int)) from rfl]
  split
  · push_cast
    rw [neg_div_neg_eq]
    exact key
  · exact key

/-- Every canonical table entry realises its shape's base duration
augmented by its dot count, with the dot count in `[0, 3]`. -/
lemma table_entry_value :
    ∀ e ∈ canonicalTable,
      ((e.1.1 : ℚ) / (e.1.2 : ℚ) =
        baseDur e.2.1 * (2 - 2 ^ (-e.2.2)) ∧ 0 ≤ e.2.2 ∧ e.2.2 ≤ 3) := by
  intro e he
  fin_cases he <;> norm_num [baseDur]

/-- On a run of octave-mark characters, the octave-mark lexer consumes
everything and returns the count of quotes minus the count of commas. -/
lemma octave_count_marks (ms : List Char)
    (h : ∀ x ∈ ms, x = '\'' ∨ x = ',') :
    octave_count ms = ([], (ms.count '\'' : Int) - (ms.count ',' : Int)) := by
  induction ms with
  | nil => rfl
  | cons x rest ih =>
    have hrest : ∀ y ∈ rest, y = '\'' ∨ y = ',' :=
      fun y hy => h y (List.mem_cons_of_mem _ hy)
    have hih := ih hrest
    rcases h x (List.mem_cons_self _ _) with rfl | rfl <;>
      simp [octave_count, hih, List.count_cons] <;> omega

/-- The accidental lexer consumes nothing when the input starts with a
character that begins no marker. -/
lemma accidental_none (c : Char) (ms : List Char)
    (h1 : c ≠ '^') (h2 : c ≠ '_') (h3 : c ≠ '=') :
    accidental (c :: ms) = none := by
  have b1 : ('^' == c) = false := beq_eq_false_iff_ne.mpr (Ne.symm h1)
  have b2 : ('_' == c) = false := beq_eq_false_iff_ne.mpr (Ne.symm h2)
  have b3 : ('=' == c) = false := beq_eq_false_iff_ne.mpr (Ne.symm h3)
  simp [accidental, tag, List.isPrefixOf, b1, b2, b3]

/-- The accidental lexer consumes nothing when the input starts with a
key letter. -/
lemma accidental_none_of_key (c : Char) (ms : List Char)
    (hc : c ∈ uppercaseKeys ∨ c ∈ lowercaseKeys) :
    accidental (c :: ms) = none := by
  rcases hc with hc | hc <;> fin_cases hc <;>
    exact accidental_none _ _ (by decide) (by decide) (by decide)

/-- Pitch parse of an uppercase key followed by a run of octave marks. -/
lemma pitch_upper_marks (c : Char) (hc : c ∈ uppercaseKeys) (ms : List Char)
    (hms : ∀ x ∈ ms, x = '\'' ∨ x = ',') :
    pitch (c :: ms) = some ([],
      ⟨4 + 0 + ((ms.count '\'' : Int) - (ms.count ',' : Int)), c, none,
       ⟨.Eighth, 0⟩⟩) := by
  have hacc := accidental_none_of_key c ms (Or.inl hc)
  simp only [pitch, hacc, pitchTail]
  fin_cases hc <;>
    rw [if_neg (by decide), if_pos (by decide),
      octave_count_marks ms hms] <;> simp

/-- Pitch parse of a lowercase key followed by a run of octave marks. -/
lemma pitch_lower_marks (c : Char) (hc : c ∈ lowercaseKeys) (ms : List Char)
    (hms : ∀ x ∈ ms, x = '\'' ∨ x = ',') :
    pitch (c :: ms) = some ([],
      ⟨4 + 1 + ((ms.count '\'' : Int) - (ms.count ',' : Int)), c.toUpper,
       none, ⟨.Eighth, 0⟩⟩) := by
  have hacc := accidental_none_of_key c ms (Or.inr hc)
  simp only [pitch, hacc, pitchTail]
  fin_cases hc <;>
    rw [if_pos (by decide), octave_count_marks ms hms]

lemma accidentalGlyph_ne_at (a : Accidental) : accidentalGlyph a ≠ '@' := by
  cases a <;> decide

lemma noteShapeGlyph_ne_at (s : NoteShape) : noteShapeGlyph s ≠ '@' := by
  cases s <;> decide

/-- The pitch-and-length part of a rendered note never contains `@`
(provided the key, grammar-produced keys being `A`-`G`, is not `@`). -/
lemma at_not_mem_note_head (n : Note) (hk : n.key ≠ '@') :
    '@' ∉ note_head n := by
  intro hmem
  simp only [note_head, lengthChars, List.mem_cons, List.mem_append] at hmem
  rcases hmem with h | h | h | h | h | h
  · exact absurd h (by decide)
  · exact hk h.symm
  · rcases hacc : n.accidental with _ | a <;> rw [hacc] at h
    · simp [noteAccChars] at h
    · simp [noteAccChars] at h
      exact accidentalGlyph_ne_at a h.symm
  · exact absurd h (by decide)
  · exact noteShapeGlyph_ne_at n.length.note_shape h.symm
  · exact absurd (List.eq_of_mem_replicate h) (by decide)

/-- Helper: success of `pitchTail` always carries the placeholder
eighth-note length. -/
lemma pitchTail_length_eq (input1 : List Char) (acc : Option Accidental)
    (rest : List Char) (note : Note)
    (h : pitchTail input1 acc = some (rest, note)) :
    note.length = ⟨.Eighth, 0⟩ := by
  cases input1 with
  | nil => simp [pitchTail] at h
  | cons ch r =>
    simp only [pitchTail] at h
    split at h
    · simp only [Option.some.injEq, Prod.mk.injEq] at h
      rw [← h.2]
    · split at h
      · simp only [Option.some.injEq, Prod.mk.injEq] at h
        rw [← h.2]
      · simp at h

end Lemmas

/-- C1: the duration parser `length` does not, in fact, return a
recoverable error on the well-formed fraction `5/128` whose reduced form
has no canonical table entry: the `.unwrap()` on src/parser.rs line 78
turns `Length::new`'s `IllegalLength` error into a panic.  This theorem
evaluates the model at the failing input: the surface grammar accepts
`5/128`, `Length::new` reports the recoverable error, and the parser as
written panics. -/
theorem C1_length_panics :
    num_num ['5', '/', '1', '2', '8'] = some ([], (5, 128)) ∧
    Length.new (5, 128) = .illegal ∧
    length ['5', '/', '1', '2', '8'] = .panicked := by
  refine ⟨by decide, by decide, by decide⟩

/-- C2 counterexample: the canonical duration table does not contain 32
entries (the `match` in `Length::new` has 30 arms: the 128th note has
only dot count 0, the 64th only 0-1, the 32nd only 0-2), so the claim's
conjunction fails. -/
theorem C2_counterexample :
    ¬ (canonicalTable.length = 32 ∧
       ∀ e ∈ canonicalTable, Length.new e.1 = .ok ⟨e.2.1, e.2.2⟩) := by
  decide

/-- C2 (amended): the canonical duration table contains exactly 30
entries spanning reduced fraction `(1,128)` through `(15,4)`, and for
every tabulated `(numerator, denominator)` entry, `Length::new` succeeds
and returns exactly the tabulated `(NoteShape, dot_count)` pair. -/
theorem C2_table_round_trip :
    canonicalTable.length = 30 ∧
    (canonicalTable.map Prod.fst).head? = some (1, 128) ∧
    (canonicalTable.map Prod.fst).getLast? = some (15, 4) ∧
    ∀ e ∈ canonicalTable, Length.new e.1 = .ok ⟨e.2.1, e.2.2⟩ := by
  refine ⟨by decide, by decide, by decide, by decide⟩

/-- C3: for every pair with nonzero denominator whose reduction to
lowest terms is not one of the tabulated canonical fractions,
`Length::new` returns the `IllegalLength` error; in particular
`Length::new (5, 128)` fails with `IllegalLength`. -/
theorem C3_illegal_reject :
    (∀ n d : Int, d ≠ 0 → reduce n d ∉ canonicalTable.map Prod.fst →
      Length.new (n, d) = .illegal) ∧
    Length.new (5, 128) = .illegal := by
  refine ⟨fun n d hd hmem => ?_, by decide⟩
  simp only [Length.new, hd, if_false, lookup_eq_none_of_not_mem hmem]

/-- C3 witness: `(10, 256)` reduces to `(5, 128)`, which is absent from
the table, and `Length::new` rejects it. -/
theorem C3_illegal_reject_witness :
    (256 : Int) ≠ 0 ∧ reduce 10 256 ∉ canonicalTable.map Prod.fst ∧
    Length.new (10, 256) = .illegal :=
  ⟨by decide, by decide, C3_illegal_reject.1 10 256 (by decide) (by decide)⟩

/-- C8: the duration grammar's three surface forms, tried in priority
order (`digits/digits`, then `/digits`, then bare slashes), give
`7/16 ↦ (Quarter, 2)`, `/2 ↦ (Half, 0)`, and `// ↦ (Quarter, 0)`; the
conjuncts on the individual alternatives document which branch each
input falls through to. -/
theorem C8_surface_forms :
    length ['7', '/', '1', '6'] = .ok [] ⟨.Quarter, 2⟩ ∧
    num_num ['7', '/', '1', '6'] = some ([], (7, 16)) ∧
    length ['/', '2'] = .ok [] ⟨.Half, 0⟩ ∧
    num_num ['/', '2'] = none ∧
    slash_num ['/', '2'] = some ([], (1, 2)) ∧
    length ['/', '/'] = .ok [] ⟨.Quarter, 0⟩ ∧
    num_num ['/', '/'] = none ∧
    slash_num ['/', '/'] = none ∧
    slash_only ['/', '/'] = some ([], (1, 4)) := by
  refine ⟨by decide, by decide, by decide, by decide, by decide,
    by decide, by decide, by decide, by decide⟩

/-- C2 witness: the first table entry `(1, 128)` is a member and
`Length::new` round-trips it. -/
theorem C2_table_round_trip_witness :
    (((1, 128), (NoteShape.Hundred28th, (0 : Int))) ∈ canonicalTable) ∧
    Length.new (1, 128) = .ok ⟨.Hundred28th, 0⟩ :=
  ⟨by decide,
    C2_table_round_trip.2.2.2 ((1, 128), (.Hundred28th, 0)) (by decide)⟩

/-- C4: whenever `Length::new` succeeds returning `(shape, k)`, the
reduced input fraction equals the shape's base duration times
`(2 - 2^-k)` in exact rational arithmetic, and the dot count `k` is an
integer in `[0, 3]`. -/
theorem C4_duration_value (n d : Int) (s : NoteShape) (k : Int)
    (h : Length.new (n, d) = .ok ⟨s, k⟩) :
    (n : ℚ) / (d : ℚ) = baseDur s * (2 - 2 ^ (-k)) ∧ 0 ≤ k ∧ k ≤ 3 := by
  by_cases hd : d = 0
  · subst hd
    simp [Length.new] at h
  · have hlook : canonicalTable.lookup (reduce n d) = some (s, k) := by
      simp only [Length.new, hd, if_false] at h
      rcases hl : canonicalTable.lookup (reduce n d) with _ | ⟨s', k'⟩ <;>
        rw [hl] at h
      · simp at h
      · simp only [NewResult.ok.injEq, Length.mk.injEq] at h
        obtain ⟨rfl, rfl⟩ := h
        rfl
    have hval := table_entry_value _ (mem_of_lookup_eq_some hlook)
    refine ⟨?_, hval.2⟩
    rw [← reduce_div_eq n d hd]
    exact hval.1

/-- C4 witness: `Length::new (7, 16)` succeeds with `(Quarter, 2)`, and
`7/16` equals a quarter note's `1/4` times `(2 - 2^-2)`. -/
theorem C4_duration_value_witness :
    ((7 : Int) : ℚ) / ((16 : Int) : ℚ) =
      baseDur .Quarter * (2 - 2 ^ (-(2 : Int))) ∧
    (0 : Int) ≤ 2 ∧ (2 : Int) ≤ 3 :=
  C4_duration_value 7 16 .Quarter 2 (by decide)

/-- C5: an uppercase key alone parses to octave `4`, that letter, and no
accidental (absence, not `Natural`); a lowercase key alone parses to
octave `5` and the uppercase letter; and over any run of octave marks
the final octave is `4 + case_offset + mark_delta` with the key
normalised to uppercase. -/
theorem C5_pitch_octaves :
    (∀ c ∈ uppercaseKeys,
      pitch [c] = some ([], ⟨4, c, none, ⟨.Eighth, 0⟩⟩)) ∧
    (∀ c ∈ lowercaseKeys,
      pitch [c] = some ([], ⟨5, c.toUpper, none, ⟨.Eighth, 0⟩⟩)) ∧
    (∀ c ∈ uppercaseKeys, ∀ ms : List Char,
      (∀ x ∈ ms, x = '\'' ∨ x = ',') →
      pitch (c :: ms) = some ([],
        ⟨4 + 0 + ((ms.count '\'' : Int) - (ms.count ',' : Int)), c, none,
         ⟨.Eighth, 0⟩⟩)) ∧
    (∀ c ∈ lowercaseKeys, ∀ ms : List Char,
      (∀ x ∈ ms, x = '\'' ∨ x = ',') →
      pitch (c :: ms) = some ([],
        ⟨4 + 1 + ((ms.count '\'' : Int) - (ms.count ',' : Int)), c.toUpper,
         none, ⟨.Eighth, 0⟩⟩)) := by
  refine ⟨fun c hc => ?_, fun c hc => ?_, pitch_upper_marks,
    pitch_lower_marks⟩
  · fin_cases hc <;> decide
  · fin_cases hc <;> decide

/-- C5 witness: lowercase `b` with one down mark lands on octave
`4 + 1 - 1 = 4` with key `B`. -/
theorem C5_pitch_octaves_witness :
    pitch ['b', ','] = some ([], ⟨4, 'B', none, ⟨.Eighth, 0⟩⟩) := by
  rw [C5_pitch_octaves.2.2.2 'b' (by decide) [','] (by decide)]
  decide

/-- C6: the accidental lexer is longest-match-first: any input beginning
with a double marker lexes as the double accidental, and `^^B` parses to
octave `4`, key `B`, double sharp. -/
theorem C6_longest_match :
    (∀ rest : List Char,
      accidental ('^' :: '^' :: rest) = some (rest, .Sharp2)) ∧
    (∀ rest : List Char,
      accidental ('_' :: '_' :: rest) = some (rest, .Flat2)) ∧
    pitch ['^', '^', 'B'] = some ([], ⟨4, 'B', some .Sharp2, ⟨.Eighth, 0⟩⟩)
    := by
  refine ⟨fun rest => ?_, fun rest => ?_, by decide⟩
  · simp [accidental, tag, List.isPrefixOf]
  · simp [accidental, tag, List.isPrefixOf]

/-- C6 witness: the double-sharp marker alone, with empty remainder. -/
theorem C6_longest_match_witness :
    accidental ['^', '^'] = some ([], .Sharp2) :=
  C6_longest_match.1 []

/-- C7: over the octave-mark alphabet, the lexer's signed delta is
invariant under permutation, equals the number of quotes minus the
number of commas, and is `0` on the empty run. -/
theorem C7_octave_marks :
    (∀ xs ys : List Char, (∀ x ∈ xs, x = '\'' ∨ x = ',') → xs.Perm ys →
      (octave_count xs).2 = (octave_count ys).2) ∧
    (∀ xs : List Char, (∀ x ∈ xs, x = '\'' ∨ x = ',') →
      (octave_count xs).2 = (xs.count '\'' : Int) - (xs.count ',' : Int)) ∧
    octave_count [] = ([], 0) := by
  refine ⟨fun xs ys hxs hperm => ?_, fun xs hxs => ?_, rfl⟩
  · have hys : ∀ x ∈ ys, x = '\'' ∨ x = ',' :=
      fun x hx => hxs x (hperm.mem_iff.mpr hx)
    rw [octave_count_marks xs hxs, octave_count_marks ys hys]
    simp [hperm.count_eq]
  · rw [octave_count_marks xs hxs]

/-- C7 witness: the two orderings of one comma and one quote give the
same delta. -/
theorem C7_octave_marks_witness :
    (octave_count [',', '\'']).2 = (octave_count ['\'', ',']).2 :=
  C7_octave_marks.1 [',', '\''] ['\'', ','] (by decide)
    (List.Perm.swap '\'' ',' [])

/-- C9: a rendered note contains the `@` annotation character exactly
when its octave differs from the reference octave `4`; at the reference
octave the rendering is the head followed by the bare closing marker,
and otherwise it is the head followed by a space, `@`, the octave's
digits, and the closing marker. -/
theorem C9_octave_render (n : Note) (hk : n.key ≠ '@') :
    ('@' ∈ note_format n ↔ n.octave ≠ 4) ∧
    (n.octave = 4 → note_format n = note_head n ++ ['>']) ∧
    (n.octave ≠ 4 → note_format n =
      note_head n ++ ' ' :: '@' :: (intChars n.octave ++ ['>'])) := by
  have h4 : n.octave = 4 → note_format n = note_head n ++ ['>'] := by
    intro h
    simp [note_format, h]
  have hne : n.octave ≠ 4 → note_format n =
      note_head n ++ ' ' :: '@' :: (intChars n.octave ++ ['>']) := by
    intro h
    simp [note_format, h]
  refine ⟨⟨fun hmem h => ?_, fun hoct => ?_⟩, h4, hne⟩
  · rw [h4 h] at hmem
    simp only [List.mem_append, List.mem_singleton] at hmem
    rcases hmem with hmem | hmem
    · exact at_not_mem_note_head n hk hmem
    · exact absurd hmem (by decide)
  · rw [hne hoct]
    simp

/-- C9 witness: the octave-5 note renders with the `@` annotation, and
all three clauses hold at that concrete note. -/
theorem C9_octave_render_witness :
    ('@' ∈ note_format ⟨5, 'B', none, ⟨.Eighth, 0⟩⟩ ↔ (5 : Int) ≠ 4) ∧
    ((5 : Int) = 4 → note_format ⟨5, 'B', none, ⟨.Eighth, 0⟩⟩ =
      note_head ⟨5, 'B', none, ⟨.Eighth, 0⟩⟩ ++ ['>']) ∧
    ((5 : Int) ≠ 4 → note_format ⟨5, 'B', none, ⟨.Eighth, 0⟩⟩ =
      note_head ⟨5, 'B', none, ⟨.Eighth, 0⟩⟩ ++ ' ' :: '@' ::
        (intChars 5 ++ ['>'])) :=
  C9_octave_render ⟨5, 'B', none, ⟨.Eighth, 0⟩⟩ (by decide)

/-- C10: every successful pitch parse carries the hardcoded placeholder
length of an undotted eighth note, independent of the input. -/
theorem C10_placeholder_length (input rest : List Char) (note : Note)
    (h : pitch input = some (rest, note)) :
    note.length = ⟨.Eighth, 0⟩ := by
  unfold pitch at h
  rcases hacc : accidental input with _ | ⟨r, a⟩ <;> rw [hacc] at h
  · exact pitchTail_length_eq _ _ _ _ h
  · exact pitchTail_length_eq _ _ _ _ h

/-- C10 witness: the parse of `B` carries the placeholder length. -/
theorem C10_placeholder_length_witness :
    (Note.mk 4 'B' none ⟨.Eighth, 0⟩).length = ⟨.Eighth, 0⟩ :=
  C10_placeholder_length ['B'] [] ⟨4, 'B', none, ⟨.Eighth, 0⟩⟩ (by decide)

end Abcrab
